import Mathlib

/-! Module resolution and loading (`module_loader.go`).

A shallow embedding of the module loader of the query interpreter: the loader
holds an ordered list of search roots, resolves an import name to a file by
probing two candidate paths under every root, and reads / parses / decodes the
resolved file.

Conventions of the embedding.

* A Go function returning `(x, err)` is a function returning a record `Ret`
  with the value, the optional error and the list of filesystem calls that the
  function performed, in program order (explicit state passing for the only
  stateful part of the code, the interaction with the filesystem).
* The filesystem is an oracle `FS` giving the outcome of `os.Stat`,
  `ioutil.ReadFile` and `os.Open` on every path; it is fixed during one call.
* The functions of `path/filepath`, `strconv.Quote` and the parser
  `ParseModule` are collaborators of the loader; the loader is parametrised
  by them (`Env`).  A concrete Unix instance `unixEnv` is given for evaluating
  the code on concrete inputs.
* Go strings are modelled by `String`; the separator and the dot are ASCII, so
  scanning characters and scanning bytes agree.
-/

set_option autoImplicit false

namespace Gojq

/-! ## Errors -/

/-- Error numbers carried by the errors of the `os` package. -/
inductive Errno where
  | ENOENT
  | EACCES
  | ENOTDIR
  | EISDIR
  | EPERM
  | errno (n : Nat)
deriving DecidableEq

/-- Values of Go's `error` interface that the loader can see or build:
`io.EOF`, the `*os.PathError` of a failed filesystem call, the error built by
`fmt.Errorf`, errors of the collaborators (parser, JSON decoder), and the two
structured errors `queryParseError` and `jsonParseError` built by the loader
(fields in declaration order). -/
inductive GoError where
  | EOF
  | PathError (op path : String) (errno : Errno)
  | errorString (msg : String)
  | foreign (msg : String)
  | queryParseError (typ fname contents : String) (err : GoError)
  | jsonParseError (fname contents : String) (err : GoError)
deriving DecidableEq

/-- The predicate `os.IsNotExist`: the error reports that a file or directory
does not exist. -/
def IsNotExist : GoError → Bool
  | .PathError _ _ .ENOENT => true
  | _ => false

/-! ## Decoded values and metadata -/

/-- Values of type `interface{}` as produced by the JSON decoder and as stored
in an import's metadata map.  A number is kept as mantissa and decimal
exponent. -/
inductive Value where
  | null
  | bool (b : Bool)
  | number (mantissa exponent : Int)
  | string (s : String)
  | array (xs : List Value)
  | object (kvs : List (String × Value))

/-- The metadata map `map[string]interface{}`: `none` is the nil map, a
non-nil map is given by its entries (the first entry of a key counts). -/
abbrev Meta := Option (List (String × Value))

/-- The map read `x, ok := meta[key]`: `none` when `ok` is false. -/
def Meta.get (m : Meta) (key : String) : Option Value :=
  match m with
  | none => none
  | some kvs => kvs.lookup key

/-- The type assertion `s, ok := x.(string)`: `none` when `ok` is false. -/
def Value.assertString : Value → Option String
  | .string s => some s
  | _ => none

/-! ## Syntax tree of a module -/

/-- Modelled from the spec: the declaration of `ConstTerm` is owned by the
parser and is not part of the loader.  A constant term is either a string
constant (`ConstTerm{Str: s}`, the only form the loader builds) or another
constant kept by its source text. -/
inductive ConstTerm where
  | Str (s : String)
  | Other (text : String)
deriving DecidableEq

/-- Modelled from the spec: a key/value pair of an object literal
(`ConstObjectKeyVal`), with the fields `Key` and `Val` that the loader sets. -/
structure ConstObjectKeyVal where
  Key : String
  Val : ConstTerm
deriving DecidableEq

/-- Modelled from the spec: an object literal (`ConstObject`), the form in
which the metadata of an import is kept in the syntax tree. -/
structure ConstObject where
  KeyVals : List ConstObjectKeyVal
deriving DecidableEq

/-- Modelled from the spec: an import record; `Meta` is a pointer that is nil
(`none`) when the import statement has no metadata. -/
structure Import where
  ImportPath : String
  ImportAlias : String
  IncludePath : String
  Meta : Option ConstObject
deriving DecidableEq

/-- Modelled from the spec: a parsed module; besides its imports it has fields
owned by the parser, kept here as `Body`. -/
structure Module where
  Imports : List Import
  Body : String
deriving DecidableEq

/-! ## Collaborators -/

/-- The collaborators of the loader: `filepath.Join`, `filepath.Clean`,
`filepath.Base`, `filepath.Dir`, `strconv.Quote` (also the verb `%q` of
`fmt`), and the parser `ParseModule`. -/
structure Env where
  Join : List String → String
  Clean : String → String
  Base : String → String
  Dir : String → String
  Quote : String → String
  ParseModule : String → Except GoError Module

/-- The result of `os.Stat`: only `IsDir` is used by the loader. -/
structure FileInfo where
  IsDir : Bool
deriving DecidableEq

/-- An opened file seen through `json.NewDecoder(io.TeeReader(f, &buf))`:
`Decode i` is the outcome of the call number `i` (from 0) of `dec.Decode`,
and `Buffered i` is the content of `buf` right after that call. -/
structure File where
  Decode : Nat → Except GoError Value
  Buffered : Nat → String

/-- A filesystem state: the outcomes of `os.Stat`, `ioutil.ReadFile` and
`os.Open` on every path. -/
structure FS where
  Stat : String → Except GoError FileInfo
  ReadFile : String → Except GoError String
  Open : String → Except GoError File

/-- A call made to the filesystem by the loader itself.  The reads made by
the JSON decoder on an opened file are part of `File.Decode`. -/
inductive Syscall where
  | Stat (path : String)
  | ReadFile (path : String)
  | Open (path : String)
  | Close (path : String)
deriving DecidableEq

/-- What a Go function returning `(val, err)` gives back, with the
filesystem calls it made. -/
structure Ret (α : Type) where
  val : α
  err : Option GoError
  calls : List Syscall

/-! ## The loader -/

/-- The loader: its ordered list of search roots. -/
structure moduleLoader where
  paths : List String
deriving DecidableEq

/-- The constructor `NewModuleLoader`. -/
def NewModuleLoader (paths : List String) : moduleLoader := ⟨paths⟩

/-- The function `searchPath`: the extra search root given by the metadata,
or the empty string. -/
def searchPath (env : Env) (m : Meta) : String :=
  match m.get "$$path" with
  | none => ""
  | some x =>
    match x.assertString with
    | none => ""
    | some path =>
      match m.get "search" with
      | none => ""
      | some y =>
        match y.assertString with
        | none => ""
        | some s => env.Join [env.Dir path, s]

/-- The loop of `lookupModule` over the effective roots `paths`. -/
def lookupModule.loop (env : Env) (fs : FS) (name extension : String) :
    List String → Ret String
  | [] => ⟨"", some (.errorString ("module not found: " ++ env.Quote name)), []⟩
  | base :: rest =>
    let path := env.Clean (env.Join [base, name ++ extension])
    match fs.Stat path with
    | .ok _ => ⟨path, none, [.Stat path]⟩
    | .error _ =>
      let path2 := env.Clean (env.Join [base, name, env.Base name ++ extension])
      match fs.Stat path2 with
      | .ok _ => ⟨path2, none, [.Stat path, .Stat path2]⟩
      | .error _ =>
        let r := lookupModule.loop env fs name extension rest
        ⟨r.val, r.err, .Stat path :: .Stat path2 :: r.calls⟩

/-- The effective roots of `lookupModule`: the value of its variable `paths`
when the loop starts. -/
def lookupModule.paths (env : Env) (l : moduleLoader) (m : Meta) : List String :=
  let paths := l.paths
  let path := searchPath env m
  if path ≠ "" then path :: paths else paths

/-- The method `lookupModule`. -/
def lookupModule (env : Env) (fs : FS) (l : moduleLoader)
    (name extension : String) (m : Meta) : Ret String :=
  lookupModule.loop env fs name extension (lookupModule.paths env l m)

/-- The function `parseModule`: parse the content and append the key `$$path`
with the quoted path to the metadata of every import that has metadata.  The
source updates the imports in place; the imports of a parsed module are
distinct objects, so the update is a map over them. -/
def parseModule (env : Env) (path cnt : String) : Except GoError Module :=
  match env.ParseModule cnt with
  | .error err => .error err
  | .ok m =>
    .ok ⟨m.Imports.map fun i =>
        match i.Meta with
        | none => i
        | some o =>
          ⟨i.ImportPath, i.ImportAlias, i.IncludePath,
            some ⟨o.KeyVals ++ [⟨"$$path", .Str (env.Quote path)⟩]⟩⟩,
      m.Body⟩

/-- The loop of `LoadInitModules` over the search roots; `ms` is the list of
the modules collected so far. -/
def LoadInitModules.loop (env : Env) (fs : FS) :
    List String → List Module → Ret (List Module)
  | [], ms => ⟨ms, none, []⟩
  | path :: rest, ms =>
    if env.Base path ≠ ".jq" then
      LoadInitModules.loop env fs rest ms
    else
      match fs.Stat path with
      | .error err =>
        if IsNotExist err then
          let r := LoadInitModules.loop env fs rest ms
          ⟨r.val, r.err, .Stat path :: r.calls⟩
        else
          ⟨[], some err, [.Stat path]⟩
      | .ok fi =>
        if fi.IsDir then
          let r := LoadInitModules.loop env fs rest ms
          ⟨r.val, r.err, .Stat path :: r.calls⟩
        else
          match fs.ReadFile path with
          | .error err => ⟨[], some err, [.Stat path, .ReadFile path]⟩
          | .ok cnt =>
            match parseModule env path cnt with
            | .error err =>
              ⟨[], some (.queryParseError "query in module" path cnt err),
                [.Stat path, .ReadFile path]⟩
            | .ok m =>
              let r := LoadInitModules.loop env fs rest (ms ++ [m])
              ⟨r.val, r.err, .Stat path :: .ReadFile path :: r.calls⟩

/-- The method `LoadInitModules`. -/
def LoadInitModules (env : Env) (fs : FS) (l : moduleLoader) : Ret (List Module) :=
  LoadInitModules.loop env fs l.paths []

/-- The method `LoadModuleWithMeta`; the value is `none` for a nil module. -/
def LoadModuleWithMeta (env : Env) (fs : FS) (l : moduleLoader)
    (name : String) (m : Meta) : Ret (Option Module) :=
  let r := lookupModule env fs l name ".jq" m
  match r.err with
  | some err => ⟨none, some err, r.calls⟩
  | none =>
    let path := r.val
    match fs.ReadFile path with
    | .error err => ⟨none, some err, r.calls ++ [.ReadFile path]⟩
    | .ok cnt =>
      match parseModule env path cnt with
      | .error err =>
        ⟨none, some (.queryParseError "query in module" path cnt err),
          r.calls ++ [.ReadFile path]⟩
      | .ok md => ⟨some md, none, r.calls ++ [.ReadFile path]⟩

/-- The decoding loop of `LoadJSONWithMeta`: `i` is the number of calls of
`dec.Decode` made so far and `vals` the values collected so far.  The loop of
the source has no bound; here it runs for at most `fuel` calls and gives
`none` when they do not suffice.  The result is the pair returned by
`LoadJSONWithMeta`: the values (`none` for nil) and the error. -/
def LoadJSONWithMeta.loop (path : String) (f : File) :
    Nat → Nat → List Value → Option (Option (List Value) × Option GoError)
  | 0, _, _ => none
  | fuel + 1, i, vals =>
    match f.Decode i with
    | .error err =>
      match err with
      | .EOF => some (some vals, none)
      | _ => some (none, some (.jsonParseError path (f.Buffered i) err))
    | .ok val => LoadJSONWithMeta.loop path f fuel (i + 1) (vals ++ [val])

/-- The method `LoadJSONWithMeta`, with the bound `fuel` on the number of
calls of `dec.Decode`; `none` when the bound does not suffice.  The value is
`none` for nil. -/
def LoadJSONWithMeta (env : Env) (fs : FS) (l : moduleLoader) (fuel : Nat)
    (name : String) (m : Meta) : Option (Ret (Option (List Value))) :=
  let r := lookupModule env fs l name ".json" m
  match r.err with
  | some err => some ⟨none, some err, r.calls⟩
  | none =>
    let path := r.val
    match fs.Open path with
    | .error err => some ⟨none, some err, r.calls ++ [.Open path]⟩
    | .ok f =>
      match LoadJSONWithMeta.loop path f fuel 0 [] with
      | none => none
      | some (vals, err) =>
        some ⟨vals, err, r.calls ++ [.Open path, .Close path]⟩

/-! ## The collaborators on Unix

The functions of `path/filepath` for the separator `/` (no volume names),
following the rules documented for them, and `strconv.Quote`. -/

namespace Unix

/-- The elements of a path: the pieces between separators. -/
def splitSep : List Char → List (List Char)
  | [] => [[]]
  | c :: cs =>
    if c = '/' then [] :: splitSep cs
    else
      match splitSep cs with
      | [] => [[c]]
      | x :: xs => (c :: x) :: xs

/-- One step of `Clean` on the next element; `out` holds the elements kept so
far, last one first.  Empty and `.` elements are dropped; a `..` element
removes the last kept element unless there is none to remove (none at all, or
only leading `..` elements), in which case it is dropped when the path is
rooted and kept otherwise. -/
def cleanStep (rooted : Bool) (out : List (List Char)) (e : List Char) :
    List (List Char) :=
  if e = [] ∨ e = ['.'] then out
  else if e = ['.', '.'] then
    match out with
    | [] => if rooted then [] else [e]
    | top :: below =>
      if top = ['.', '.'] then (if rooted then out else e :: out) else below
  else e :: out

/-- Join elements with the separator. -/
def joinSep : List (List Char) → List Char
  | [] => []
  | [x] => x
  | x :: y :: rest => x ++ '/' :: joinSep (y :: rest)

/-- The function `filepath.Clean` on characters. -/
def cleanChars (path : List Char) : List Char :=
  match path with
  | [] => ['.']
  | c :: _ =>
    let rooted : Bool := c = '/'
    let out := (splitSep path).foldl (cleanStep rooted) []
    let body := joinSep out.reverse
    if rooted then '/' :: body
    else if body = [] then ['.'] else body

/-- The function `filepath.Clean`. -/
def Clean (path : String) : String := ⟨cleanChars path.data⟩

/-- The function `filepath.Join`: the elements from the first non-empty one
on, joined with the separator and cleaned; empty when all are empty. -/
def Join : List String → String
  | [] => ""
  | e :: rest =>
    if e = "" then Join rest
    else Clean ⟨joinSep ((e :: rest).map String.data)⟩

/-- Remove the trailing separators. -/
def stripTrailingSep (path : List Char) : List Char :=
  (path.reverse.dropWhile (fun c => c = '/')).reverse

/-- The part after the last separator (all of it when there is none). -/
def lastElem (path : List Char) : List Char :=
  (path.reverse.takeWhile (fun c => c ≠ '/')).reverse

/-- The function `filepath.Base`. -/
def Base (path : String) : String :=
  if path = "" then "."
  else
    let e := lastElem (stripTrailingSep path.data)
    if e = [] then "/" else ⟨e⟩

/-- The function `filepath.Dir`: clean what comes before the last element. -/
def Dir (path : String) : String :=
  ⟨cleanChars (path.data.reverse.dropWhile (fun c => c ≠ '/')).reverse⟩

/-- The function `filepath.IsAbs`: the path begins with the separator. -/
def IsAbs (path : String) : Bool :=
  match path.data with
  | [] => false
  | c :: _ => c = '/'

/-- A hexadecimal digit. -/
def hexDigit (n : Nat) : Char :=
  if n < 10 then Char.ofNat (48 + n) else Char.ofNat (87 + n)

/-- The escape of one character by `strconv.Quote`, exact on ASCII.
Characters outside ASCII are taken to be printable and so are kept, where
`strconv.Quote` escapes the non-printable ones; the general properties take
the quoting function as a parameter and do not depend on this. -/
def quoteChar (c : Char) : List Char :=
  let bs := Char.ofNat 92
  if c = Char.ofNat 34 then [bs, c]
  else if c = bs then [bs, bs]
  else if c = Char.ofNat 7 then [bs, 'a']
  else if c = Char.ofNat 8 then [bs, 'b']
  else if c = Char.ofNat 12 then [bs, 'f']
  else if c = Char.ofNat 10 then [bs, 'n']
  else if c = Char.ofNat 13 then [bs, 'r']
  else if c = Char.ofNat 9 then [bs, 't']
  else if c = Char.ofNat 11 then [bs, 'v']
  else if c.toNat < 32 ∨ c.toNat = 127 then
    [bs, 'x', hexDigit (c.toNat / 16), hexDigit (c.toNat % 16)]
  else [c]

/-- The function `strconv.Quote`. -/
def Quote (s : String) : String :=
  ⟨Char.ofNat 34 :: (s.data.flatMap quoteChar ++ [Char.ofNat 34])⟩

end Unix

/-- The collaborators on Unix, for a given parser. -/
def unixEnv (parse : String → Except GoError Module) : Env :=
  ⟨Unix.Join, Unix.Clean, Unix.Base, Unix.Dir, Unix.Quote, parse⟩

/-! ## Notions of the specification -/

/-- A path exists: `os.Stat` succeeds on it. -/
def FS.Exists (fs : FS) (path : String) : Bool :=
  match fs.Stat path with
  | .ok _ => true
  | .error _ => false

/-- The flat form of a module under a root: `Clean(Join(r, name+extension))`. -/
def flatForm (env : Env) (name extension r : String) : String :=
  env.Clean (env.Join [r, name ++ extension])

/-- The package-directory form of a module under a root:
`Clean(Join(r, name, Base(name)+extension))`. -/
def packageForm (env : Env) (name extension r : String) : String :=
  env.Clean (env.Join [r, name, env.Base name ++ extension])

/-- The candidate sequence of the specification: for each root in order, the
flat form and then the package-directory form. -/
def candidates (env : Env) (name extension : String) (roots : List String) :
    List String :=
  roots.flatMap fun r => [flatForm env name extension r, packageForm env name extension r]

/-- The not-found error of the specification for a module name. -/
def notFound (env : Env) (name : String) : GoError :=
  .errorString ("module not found: " ++ env.Quote name)

/-- An init file of the specification: a root entry whose base name is `.jq`,
that exists and is not a directory. -/
def isInitFile (env : Env) (fs : FS) (path : String) : Bool :=
  decide (env.Base path = ".jq") &&
    match fs.Stat path with
    | .ok fi => !fi.IsDir
    | .error _ => false

/-- The parsed module of a file, when the file can be read and parses. -/
def parsedModule (env : Env) (fs : FS) (path : String) : Option Module :=
  match fs.ReadFile path with
  | .error _ => none
  | .ok cnt =>
    match parseModule env path cnt with
    | .error _ => none
    | .ok m => some m

/-- The content and the parse error of an init file whose parse fails. -/
def initParseError (env : Env) (fs : FS) (path : String) : Option (String × GoError) :=
  if isInitFile env fs path then
    match fs.ReadFile path with
    | .error _ => none
    | .ok cnt =>
      match parseModule env path cnt with
      | .error e => some (cnt, e)
      | .ok _ => none
  else none

/-- The import after `parseModule` handled it, for the file `path`. -/
def withPath (env : Env) (path : String) (i : Import) : Import :=
  match i.Meta with
  | none => i
  | some o =>
    ⟨i.ImportPath, i.ImportAlias, i.IncludePath,
      some ⟨o.KeyVals ++ [⟨"$$path", .Str (env.Quote path)⟩]⟩⟩

/-- The metadata carries the key `$$path` with the quote of a path that is
absolute and cleaned. -/
def carriesCleanAbsolutePath (env : Env) (o : ConstObject) : Prop :=
  ∃ q, Unix.IsAbs q = true ∧ env.Clean q = q ∧
    (⟨"$$path", .Str (env.Quote q)⟩ : ConstObjectKeyVal) ∈ o.KeyVals

/-! ## Concrete filesystems and parsers for evaluating the code -/

/-- An entry of an example filesystem. -/
inductive Entry where
  /-- A directory. -/
  | dir
  /-- A readable regular file with its content. -/
  | file (content : String)
  /-- A path on which every call fails with the error number. -/
  | denied (errno : Errno)
  /-- A regular file that can be stat-ed but not opened. -/
  | unreadable (errno : Errno)
deriving DecidableEq

/-- The stream of an opened directory: the first read fails. -/
def dirStream (path : String) : File :=
  ⟨fun _ => .error (.PathError "read" path .EISDIR), fun _ => ""⟩

/-- The filesystem with the listed entries and nothing else; `decode` gives
the behaviour of the JSON decoder on a content. -/
def exampleFS (entries : List (String × Entry)) (decode : String → File) : FS where
  Stat path :=
    match entries.lookup path with
    | none => .error (.PathError "stat" path .ENOENT)
    | some .dir => .ok ⟨true⟩
    | some (.file _) => .ok ⟨false⟩
    | some (.denied e) => .error (.PathError "stat" path e)
    | some (.unreadable _) => .ok ⟨false⟩
  ReadFile path :=
    match entries.lookup path with
    | none => .error (.PathError "open" path .ENOENT)
    | some .dir => .error (.PathError "read" path .EISDIR)
    | some (.file c) => .ok c
    | some (.denied e) => .error (.PathError "open" path e)
    | some (.unreadable e) => .error (.PathError "open" path e)
  Open path :=
    match entries.lookup path with
    | none => .error (.PathError "open" path .ENOENT)
    | some .dir => .ok (dirStream path)
    | some (.file c) => .ok (decode c)
    | some (.denied e) => .error (.PathError "open" path e)
    | some (.unreadable e) => .error (.PathError "open" path e)

/-- A decoder for the examples: the content `1 2` holds the values 1 and 2,
the content `1 x` holds the value 1 followed by a syntax error (met after the
whole content was read), any other content is taken as empty. -/
def sampleDecode (content : String) : File :=
  if content = "1 2" then
    ⟨fun i =>
      if i = 0 then .ok (.number 1 0)
      else if i = 1 then .ok (.number 2 0)
      else .error .EOF,
     fun _ => content⟩
  else if content = "1 x" then
    ⟨fun i =>
      if i = 0 then .ok (.number 1 0)
      else .error (.foreign "invalid character x looking for beginning of value"),
     fun _ => content⟩
  else ⟨fun _ => .error .EOF, fun _ => content⟩

/-- A parser for the examples: the content `bad` is rejected; the content
`imports` is a module with two imports, the first with metadata and the
second without; any other content is a module without imports. -/
def sampleParse (cnt : String) : Except GoError Module :=
  if cnt = "bad" then .error (.foreign "unexpected token")
  else if cnt = "imports" then
    .ok ⟨[⟨"a", "a", "", some ⟨[⟨"search", .Str "./"⟩]⟩⟩, ⟨"b", "b", "", none⟩], cnt⟩
  else .ok ⟨[], cnt⟩

/-- The collaborators used in the examples. -/
def sampleEnv : Env := unixEnv sampleParse

/-- A project directory where the module `utils` is packaged as a
directory. -/
def fsPackaged : FS :=
  exampleFS [("/proj", .dir), ("/proj/utils", .dir), ("/proj/utils/utils.jq", .file "def f: 1;")]
    sampleDecode

/-- The module `m` is present under `/a/lib`, `/g1` and `/g2`. -/
def fsShadowed : FS :=
  exampleFS [("/a/lib/m.jq", .file "local"), ("/g1/m.jq", .file "global 1"),
    ("/g2/m.jq", .file "global 2")] sampleDecode

/-- The metadata of an import made by `/a/b/x.ext` with the search hint
`../lib`. -/
def metaLib : Meta :=
  some [("search", .string "../lib"), ("$$path", .string "/a/b/x.ext")]

/-- A metadata map whose search hint is not a string. -/
def metaBadSearch : Meta :=
  some [("search", .number 1 0), ("$$path", .string "/a/b/x.ext")]

/-- The flat form of the module `m` is a directory and its
package-directory form is a regular file. -/
def fsDirAsFlat : FS :=
  exampleFS [("/lib", .dir), ("/lib/m.jq", .dir), ("/lib/m", .dir),
    ("/lib/m/m.jq", .file "def f: 1;")] sampleDecode

/-- A root entry given relative to the working directory and not
cleaned. -/
def fsRelativeInit : FS :=
  exampleFS [("./.jq", .file "imports")] sampleDecode

/-- A module with imports under the root `/lib`. -/
def fsImports : FS :=
  exampleFS [("/lib", .dir), ("/lib/m.jq", .file "imports")] sampleDecode

/-- Root entries for init files: one does not exist, one is a directory
named `.jq`, one is an init file. -/
def fsInit : FS :=
  exampleFS [("/dir-not-init-named", .dir), ("/dir-not-init-named/.jq", .dir),
    ("/home/u/.jq", .file "imports"), ("/etc/lib", .dir)] sampleDecode

/-- An init file that cannot be opened, followed by an init file that does
not parse. -/
def fsUnreadableInit : FS :=
  exampleFS [("/a/.jq", .unreadable .EACCES), ("/b/.jq", .file "bad")] sampleDecode

/-- An init file that parses, one that does not, and one more. -/
def fsBadInit : FS :=
  exampleFS [("/a/.jq", .file "imports"), ("/b/.jq", .file "bad"), ("/c/.jq", .file "ok")]
    sampleDecode

/-- Data files: two values, a value followed by a syntax error, an empty
file, and a directory named as a data file. -/
def fsData : FS :=
  exampleFS [("/data", .dir), ("/data/two.json", .file "1 2"),
    ("/data/broken.json", .file "1 x"), ("/data/empty.json", .file ""),
    ("/data/d.json", .dir)] sampleDecode

/-- The root entry `/f/.jq` lies under the regular file `/f`: its stat fails
because `/f` is not a directory. -/
def fsNotDir : FS :=
  exampleFS [("/f", .file "text"), ("/f/.jq", .denied .ENOTDIR)] sampleDecode

end Gojq

/-! # Properties of the loader -/

namespace Gojq

/-! ## Path resolution -/

/-- The loop of `lookupModule` returns the first candidate on which `os.Stat`
succeeds, or the not-found error when there is none. -/
theorem lookupModule.loop_find (env : Env) (fs : FS) (name ext : String)
    (roots : List String) :
    match (candidates env name ext roots).find? fs.Exists with
    | some c =>
      (lookupModule.loop env fs name ext roots).val = c ∧
        (lookupModule.loop env fs name ext roots).err = none
    | none =>
      (lookupModule.loop env fs name ext roots).val = "" ∧
        (lookupModule.loop env fs name ext roots).err = some (notFound env name) := by
  induction roots with
  | nil => simp [candidates, lookupModule.loop, notFound]
  | cons r rest ih =>
    simp only [candidates, List.flatMap_cons, List.cons_append, List.nil_append,
      List.find?_cons, FS.Exists, flatForm, packageForm] at ih ⊢
    unfold lookupModule.loop
    simp only []
    cases h1 : fs.Stat (env.Clean (env.Join [r, name ++ ext])) with
    | ok fi => simp
    | error e1 =>
      simp only []
      cases h2 : fs.Stat (env.Clean (env.Join [r, name, env.Base name ++ ext])) with
      | ok fi => simp
      | error e2 => simpa using ih

/-- The calls made by the loop of `lookupModule`: it stats the candidates in
order, up to and including the first that exists. -/
theorem lookupModule.loop_calls (env : Env) (fs : FS) (name ext : String)
    (roots : List String) :
    (lookupModule.loop env fs name ext roots).calls =
      (((candidates env name ext roots).takeWhile fun c => !fs.Exists c) ++
        ((candidates env name ext roots).find? fs.Exists).toList).map Syscall.Stat := by
  induction roots with
  | nil => simp [candidates, lookupModule.loop]
  | cons r rest ih =>
    simp only [candidates, List.flatMap_cons, List.cons_append, List.nil_append,
      List.find?_cons, List.takeWhile_cons, FS.Exists, flatForm, packageForm] at ih ⊢
    unfold lookupModule.loop
    simp only []
    cases h1 : fs.Stat (env.Clean (env.Join [r, name ++ ext])) with
    | ok fi => simp
    | error e1 =>
      simp only []
      cases h2 : fs.Stat (env.Clean (env.Join [r, name, env.Base name ++ ext])) with
      | ok fi => simp
      | error e2 => simp [ih]

/-- When the first existing candidate is `c`, the loop returns it. -/
theorem lookupModule.loop_some (env : Env) (fs : FS) (name ext : String)
    (roots : List String) (c : String)
    (h : (candidates env name ext roots).find? fs.Exists = some c) :
    (lookupModule.loop env fs name ext roots).val = c ∧
      (lookupModule.loop env fs name ext roots).err = none := by
  have := lookupModule.loop_find env fs name ext roots
  rw [h] at this
  exact this

/-- When no candidate exists, the loop fails with the not-found error. -/
theorem lookupModule.loop_none (env : Env) (fs : FS) (name ext : String)
    (roots : List String)
    (h : (candidates env name ext roots).find? fs.Exists = none) :
    (lookupModule.loop env fs name ext roots).val = "" ∧
      (lookupModule.loop env fs name ext roots).err = some (notFound env name) := by
  have := lookupModule.loop_find env fs name ext roots
  rw [h] at this
  exact this

/-- The candidates of a split root list. -/
theorem candidates_append (env : Env) (name ext : String) (pre post : List String) :
    candidates env name ext (pre ++ post) =
      candidates env name ext pre ++ candidates env name ext post := by
  simp [candidates]

/-- The candidates of a root list with a first root. -/
theorem candidates_cons (env : Env) (name ext r : String) (rest : List String) :
    candidates env name ext (r :: rest) =
      flatForm env name ext r :: packageForm env name ext r :: candidates env name ext rest := by
  simp [candidates]

/-- A candidate is the flat or the package-directory form under a root. -/
theorem mem_candidates (env : Env) (name ext c : String) (roots : List String) :
    c ∈ candidates env name ext roots ↔
      ∃ r ∈ roots, c = flatForm env name ext r ∨ c = packageForm env name ext r := by
  simp [candidates]

/-- C1: if at least one candidate of the sequence (for each effective root in
order, the flat form then the package-directory form) exists, `lookupModule`
succeeds and returns the first existing candidate of the sequence; in
particular the package-directory form of a root is returned when the flat
form under that root does not exist and no candidate of an earlier root
exists. -/
theorem C1_lookupModule_first_existing (env : Env) (fs : FS) (l : moduleLoader)
    (name ext : String) (m : Meta) :
    ((∃ c ∈ candidates env name ext (lookupModule.paths env l m), fs.Exists c = true) →
      ∃ pre c post,
        candidates env name ext (lookupModule.paths env l m) = pre ++ c :: post ∧
        (∀ x ∈ pre, fs.Exists x = false) ∧ fs.Exists c = true ∧
        (lookupModule env fs l name ext m).val = c ∧
        (lookupModule env fs l name ext m).err = none) ∧
    (∀ pre r post, lookupModule.paths env l m = pre ++ r :: post →
      (∀ x ∈ candidates env name ext pre, fs.Exists x = false) →
      fs.Exists (flatForm env name ext r) = false →
      fs.Exists (packageForm env name ext r) = true →
      (lookupModule env fs l name ext m).val = packageForm env name ext r ∧
        (lookupModule env fs l name ext m).err = none) := by
  constructor
  · rintro ⟨c0, hc0, hex0⟩
    cases hf : (candidates env name ext (lookupModule.paths env l m)).find? fs.Exists with
    | none =>
      rw [List.find?_eq_none] at hf
      exact absurd hex0 (hf c0 hc0)
    | some c =>
      obtain ⟨hc, pre, post, hsplit, hpre⟩ := List.find?_eq_some.mp hf
      refine ⟨pre, c, post, hsplit, ?_, hc, ?_⟩
      · intro x hx
        simpa using hpre x hx
      · exact lookupModule.loop_some env fs name ext _ c hf
  · intro pre r post hsplit hpre hflat hpkg
    apply lookupModule.loop_some
    rw [hsplit, candidates_append, candidates_cons, List.find?_append]
    have h1 : (candidates env name ext pre).find? fs.Exists = none := by
      rw [List.find?_eq_none]
      intro x hx
      simp [hpre x hx]
    rw [h1]
    simp [List.find?_cons, hflat, hpkg]

/-- C2: `lookupModule` fails exactly when neither the flat nor the
package-directory form exists under any effective root; when it fails the
returned path is empty and the error is the not-found error, whose message is
`module not found: ` followed by the quoted module name. -/
theorem C2_lookupModule_not_found (env : Env) (fs : FS) (l : moduleLoader)
    (name ext : String) (m : Meta) :
    ((lookupModule env fs l name ext m).err ≠ none ↔
      ∀ r ∈ lookupModule.paths env l m,
        fs.Exists (flatForm env name ext r) = false ∧
        fs.Exists (packageForm env name ext r) = false) ∧
    ((lookupModule env fs l name ext m).err ≠ none →
      (lookupModule env fs l name ext m).val = "" ∧
      (lookupModule env fs l name ext m).err =
        some (.errorString ("module not found: " ++ env.Quote name))) := by
  cases hf : (candidates env name ext (lookupModule.paths env l m)).find? fs.Exists with
  | none =>
    have hr := lookupModule.loop_none env fs name ext _ hf
    rw [List.find?_eq_none] at hf
    refine ⟨⟨fun _ r hr => ?_, fun _ => ?_⟩, fun _ => ?_⟩
    · constructor
      · simpa using hf _ ((mem_candidates env name ext _ _).mpr ⟨r, hr, Or.inl rfl⟩)
      · simpa using hf _ ((mem_candidates env name ext _ _).mpr ⟨r, hr, Or.inr rfl⟩)
    · simp [lookupModule, hr.2]
    · exact ⟨hr.1, hr.2⟩
  | some c =>
    have hr := lookupModule.loop_some env fs name ext _ c hf
    obtain ⟨hc, pre, post, hsplit, -⟩ := List.find?_eq_some.mp hf
    have hmem : c ∈ candidates env name ext (lookupModule.paths env l m) := by
      rw [hsplit]; simp
    obtain ⟨r, hr1, hr2⟩ := (mem_candidates env name ext _ _).mp hmem
    refine ⟨⟨fun h => absurd hr.2 h, fun h => ?_⟩, fun h => absurd hr.2 h⟩
    rcases hr2 with rfl | rfl
    · simp [(h r hr1).1] at hc
    · simp [(h r hr1).2] at hc

/-- C1, evaluated: roots `/proj`, module `utils`, only
`/proj/utils/utils.jq` present. -/
theorem C1_lookupModule_first_existing_witness :
    (fsPackaged.Exists "/proj/utils.jq" = false ∧
      fsPackaged.Exists "/proj/utils/utils.jq" = true) ∧
    (lookupModule sampleEnv fsPackaged ⟨["/proj"]⟩ "utils" ".jq" none).val =
      "/proj/utils/utils.jq" ∧
    (lookupModule sampleEnv fsPackaged ⟨["/proj"]⟩ "utils" ".jq" none).err = none :=
  ⟨by decide,
    (C1_lookupModule_first_existing sampleEnv fsPackaged ⟨["/proj"]⟩ "utils" ".jq" none).2
      [] "/proj" [] (by decide) (by decide) (by decide) (by decide)⟩

/-- C2, evaluated: the module `nope` is nowhere under `/proj`. -/
theorem C2_lookupModule_not_found_witness :
    (lookupModule sampleEnv fsPackaged ⟨["/proj"]⟩ "nope" ".jq" none).val = "" ∧
    (lookupModule sampleEnv fsPackaged ⟨["/proj"]⟩ "nope" ".jq" none).err =
      some (.errorString "module not found: \"nope\"") :=
  (C2_lookupModule_not_found sampleEnv fsPackaged ⟨["/proj"]⟩ "nope" ".jq" none).2
    (by decide)

/-! ## The root given by the metadata -/

/-- On Unix `Clean` never returns the empty string. -/
theorem Unix.cleanChars_ne_nil (path : List Char) : Unix.cleanChars path ≠ [] := by
  unfold Unix.cleanChars
  cases path with
  | nil => simp
  | cons c cs =>
    simp only []
    split
    · simp
    · split <;> simp_all

/-- On Unix the root computed from the metadata, `Join(Dir(p), s)`, is never
the empty string. -/
theorem Unix.Join_Dir_ne_empty (p s : String) : Unix.Join [Unix.Dir p, s] ≠ "" := by
  have hd : Unix.Dir p ≠ "" := by
    intro h
    have := congrArg String.data h
    exact Unix.cleanChars_ne_nil _ this
  unfold Unix.Join
  rw [if_neg hd]
  intro h
  have := congrArg String.data h
  exact Unix.cleanChars_ne_nil _ this

/-- The value of `searchPath` when both keys hold strings. -/
theorem searchPath_strings (env : Env) (m : Meta) (p s : String)
    (hp : m.get "$$path" = some (.string p)) (hs : m.get "search" = some (.string s)) :
    searchPath env m = env.Join [env.Dir p, s] := by
  simp [searchPath, hp, hs, Value.assertString]

/-- The value of `searchPath` when a key is missing or does not hold a
string. -/
theorem searchPath_absent (env : Env) (m : Meta)
    (h : (m.get "$$path").bind Value.assertString = none ∨
      (m.get "search").bind Value.assertString = none) :
    searchPath env m = "" := by
  unfold searchPath
  repeat' split
  all_goals first
    | rfl
    | (rename_i _ _ h1 _ _ h2 _ _ h3 _ _ h4
       simp [h1, h2, h3, h4] at h)

/-- C3: when `$$path` is a string `p` and `search` is a string `s`, the
effective roots of `lookupModule` (with the Unix path functions) are
`Join(Dir(p), s)` followed by the configured roots in order: when nothing
exists the probes are the candidates of these roots in this order, and a
module that exists under the first of them is returned from there whatever
exists under the configured roots. -/
theorem C3_metadata_root_first (parse : String → Except GoError Module) (fs : FS)
    (l : moduleLoader) (name ext : String) (m : Meta) (p s : String)
    (hp : m.get "$$path" = some (.string p)) (hs : m.get "search" = some (.string s)) :
    lookupModule.paths (unixEnv parse) l m = Unix.Join [Unix.Dir p, s] :: l.paths ∧
    ((∀ c ∈ candidates (unixEnv parse) name ext (Unix.Join [Unix.Dir p, s] :: l.paths),
        fs.Exists c = false) →
      (lookupModule (unixEnv parse) fs l name ext m).calls =
        (candidates (unixEnv parse) name ext
          (Unix.Join [Unix.Dir p, s] :: l.paths)).map Syscall.Stat) ∧
    (fs.Exists (flatForm (unixEnv parse) name ext (Unix.Join [Unix.Dir p, s])) = true →
      (lookupModule (unixEnv parse) fs l name ext m).val =
          flatForm (unixEnv parse) name ext (Unix.Join [Unix.Dir p, s]) ∧
        (lookupModule (unixEnv parse) fs l name ext m).err = none) ∧
    (fs.Exists (flatForm (unixEnv parse) name ext (Unix.Join [Unix.Dir p, s])) = false →
      fs.Exists (packageForm (unixEnv parse) name ext (Unix.Join [Unix.Dir p, s])) = true →
      (lookupModule (unixEnv parse) fs l name ext m).val =
          packageForm (unixEnv parse) name ext (Unix.Join [Unix.Dir p, s]) ∧
        (lookupModule (unixEnv parse) fs l name ext m).err = none) := by
  have hpaths : lookupModule.paths (unixEnv parse) l m =
      Unix.Join [Unix.Dir p, s] :: l.paths := by
    have hsp := searchPath_strings (unixEnv parse) m p s hp hs
    simp only [lookupModule.paths, hsp]
    exact if_pos (Unix.Join_Dir_ne_empty p s)
  refine ⟨hpaths, ?_, ?_, ?_⟩
  · intro hnone
    have hf : (candidates (unixEnv parse) name ext
        (Unix.Join [Unix.Dir p, s] :: l.paths)).find? fs.Exists = none := by
      rw [List.find?_eq_none]
      intro x hx
      simp [hnone x hx]
    have htw : (candidates (unixEnv parse) name ext
        (Unix.Join [Unix.Dir p, s] :: l.paths)).takeWhile (fun c => !fs.Exists c) =
        candidates (unixEnv parse) name ext (Unix.Join [Unix.Dir p, s] :: l.paths) := by
      rw [List.takeWhile_eq_self_iff]
      intro x hx
      simp [hnone x hx]
    simp only [lookupModule, hpaths, lookupModule.loop_calls, hf, htw]
    simp
  · intro hflat
    simp only [lookupModule, hpaths]
    apply lookupModule.loop_some
    simp [candidates_cons, hflat]
  · intro hflat hpkg
    simp only [lookupModule, hpaths]
    apply lookupModule.loop_some
    simp [candidates_cons, hflat, hpkg]

/-- C3, evaluated: the importer `/a/b/x.ext` with the hint `../lib` and the
roots `/g1`, `/g2`; the module `m` exists under the three roots and is taken
from `/a/lib`; the probes for a missing module go through `/a/lib`, `/g1`,
`/g2`. -/
theorem C3_metadata_root_first_witness :
    lookupModule.paths sampleEnv ⟨["/g1", "/g2"]⟩ metaLib = ["/a/lib", "/g1", "/g2"] ∧
    (lookupModule sampleEnv fsShadowed ⟨["/g1", "/g2"]⟩ "nope" ".jq" metaLib).calls =
      [.Stat "/a/lib/nope.jq", .Stat "/a/lib/nope/nope.jq", .Stat "/g1/nope.jq",
        .Stat "/g1/nope/nope.jq", .Stat "/g2/nope.jq", .Stat "/g2/nope/nope.jq"] ∧
    fsShadowed.Exists "/g1/m.jq" = true ∧
    (lookupModule sampleEnv fsShadowed ⟨["/g1", "/g2"]⟩ "m" ".jq" metaLib).val =
      "/a/lib/m.jq" :=
  ⟨(C3_metadata_root_first sampleParse fsShadowed ⟨["/g1", "/g2"]⟩ "m" ".jq" metaLib
      "/a/b/x.ext" "../lib" rfl rfl).1,
    (C3_metadata_root_first sampleParse fsShadowed ⟨["/g1", "/g2"]⟩ "nope" ".jq" metaLib
      "/a/b/x.ext" "../lib" rfl rfl).2.1 (by decide),
    by decide,
    ((C3_metadata_root_first sampleParse fsShadowed ⟨["/g1", "/g2"]⟩ "m" ".jq" metaLib
      "/a/b/x.ext" "../lib" rfl rfl).2.2.1 (by decide)).1⟩

/-- C9: when `$$path` is missing or not a string, or `search` is missing or
not a string (the nil map included), `searchPath` returns the empty string,
the effective roots are the configured roots, and `lookupModule` gives what it
gives for nil metadata. -/
theorem C9_metadata_absent (env : Env) (fs : FS) (l : moduleLoader)
    (name ext : String) (m : Meta)
    (h : (m.get "$$path").bind Value.assertString = none ∨
      (m.get "search").bind Value.assertString = none) :
    searchPath env m = "" ∧
    lookupModule.paths env l m = l.paths ∧
    lookupModule env fs l name ext m = lookupModule env fs l name ext none := by
  have h0 := searchPath_absent env m h
  have h1 : lookupModule.paths env l m = l.paths := by
    simp [lookupModule.paths, h0]
  have h2 : lookupModule.paths env l none = l.paths := by
    simp [lookupModule.paths, searchPath, Meta.get]
  exact ⟨h0, h1, by simp only [lookupModule, h1, h2]⟩

/-- C9, evaluated: a search hint that is a number is ignored. -/
theorem C9_metadata_absent_witness :
    searchPath sampleEnv metaBadSearch = "" ∧
    lookupModule.paths sampleEnv ⟨["/g1", "/g2"]⟩ metaBadSearch = ["/g1", "/g2"] ∧
    lookupModule sampleEnv fsShadowed ⟨["/g1", "/g2"]⟩ "m" ".jq" metaBadSearch =
      lookupModule sampleEnv fsShadowed ⟨["/g1", "/g2"]⟩ "m" ".jq" none :=
  C9_metadata_absent sampleEnv fsShadowed ⟨["/g1", "/g2"]⟩ "m" ".jq" metaBadSearch
    (Or.inr rfl)

/-- C10: a candidate counts as existing as soon as `os.Stat` succeeds on it,
whatever kind of file it is: when the flat form under the first root can be
stat-ed (a directory, say) but not read, `lookupModule` returns it after this
single probe, the package-directory form is not probed, and
`LoadModuleWithMeta` fails with the read error. -/
theorem C10_stat_success_is_existence (env : Env) (fs : FS) (root : String)
    (rest : List String) (name : String) (fi : FileInfo) (e : GoError)
    (hstat : fs.Stat (flatForm env name ".jq" root) = .ok fi)
    (hread : fs.ReadFile (flatForm env name ".jq" root) = .error e) :
    (lookupModule env fs ⟨root :: rest⟩ name ".jq" none).val = flatForm env name ".jq" root ∧
    (lookupModule env fs ⟨root :: rest⟩ name ".jq" none).err = none ∧
    (lookupModule env fs ⟨root :: rest⟩ name ".jq" none).calls =
      [.Stat (flatForm env name ".jq" root)] ∧
    (LoadModuleWithMeta env fs ⟨root :: rest⟩ name none).val = none ∧
    (LoadModuleWithMeta env fs ⟨root :: rest⟩ name none).err = some e ∧
    (LoadModuleWithMeta env fs ⟨root :: rest⟩ name none).calls =
      [.Stat (flatForm env name ".jq" root), .ReadFile (flatForm env name ".jq" root)] := by
  have hl : lookupModule env fs ⟨root :: rest⟩ name ".jq" none =
      ⟨flatForm env name ".jq" root, none, [.Stat (flatForm env name ".jq" root)]⟩ := by
    simp only [flatForm] at hstat
    simp [lookupModule, lookupModule.paths, searchPath, Meta.get, lookupModule.loop,
      flatForm, hstat]
  refine ⟨by rw [hl], by rw [hl], by rw [hl], ?_⟩
  simp [LoadModuleWithMeta, hl, hread]

/-- C10, evaluated: `/lib/m.jq` is a directory and `/lib/m/m.jq` a regular
file that parses; the directory is what `lookupModule` returns. -/
theorem C10_stat_success_is_existence_witness :
    (fsDirAsFlat.Stat "/lib/m.jq" = .ok ⟨true⟩ ∧
      fsDirAsFlat.Stat "/lib/m/m.jq" = .ok ⟨false⟩ ∧
      fsDirAsFlat.ReadFile "/lib/m/m.jq" = .ok "def f: 1;" ∧
      parseModule sampleEnv "/lib/m/m.jq" "def f: 1;" = .ok ⟨[], "def f: 1;"⟩) ∧
    (lookupModule sampleEnv fsDirAsFlat ⟨["/lib"]⟩ "m" ".jq" none).val = "/lib/m.jq" ∧
    (lookupModule sampleEnv fsDirAsFlat ⟨["/lib"]⟩ "m" ".jq" none).err = none ∧
    (lookupModule sampleEnv fsDirAsFlat ⟨["/lib"]⟩ "m" ".jq" none).calls =
      [.Stat "/lib/m.jq"] ∧
    (LoadModuleWithMeta sampleEnv fsDirAsFlat ⟨["/lib"]⟩ "m" none).val = none ∧
    (LoadModuleWithMeta sampleEnv fsDirAsFlat ⟨["/lib"]⟩ "m" none).err =
      some (.PathError "read" "/lib/m.jq" .EISDIR) ∧
    (LoadModuleWithMeta sampleEnv fsDirAsFlat ⟨["/lib"]⟩ "m" none).calls =
      [.Stat "/lib/m.jq", .ReadFile "/lib/m.jq"] :=
  ⟨⟨rfl, rfl, rfl, rfl⟩,
    C10_stat_success_is_existence sampleEnv fsDirAsFlat "/lib" [] "m" ⟨true⟩
      (.PathError "read" "/lib/m.jq" .EISDIR) rfl rfl⟩

/-! ## Propagation of the path into the imports -/

/-- The function `parseModule` maps `withPath` over the imports of the parsed
module. -/
theorem parseModule_ok (env : Env) (path cnt : String) (m0 : Module)
    (h : env.ParseModule cnt = .ok m0) :
    parseModule env path cnt = .ok ⟨m0.Imports.map (withPath env path), m0.Body⟩ := by
  simp only [parseModule, h]
  rfl

/-- The function `parseModule` fails with the error of the parser. -/
theorem parseModule_error (env : Env) (path cnt : String) (e : GoError)
    (h : env.ParseModule cnt = .error e) :
    parseModule env path cnt = .error e := by
  simp only [parseModule, h]

/-- Every module returned by the loop of `LoadInitModules` beyond those it
started with is `parseModule` of a root entry, as configured, and its
content. -/
theorem LoadInitModules.loop_mem (env : Env) (fs : FS) (paths : List String) :
    ∀ ms md, md ∈ (LoadInitModules.loop env fs paths ms).val → md ∈ ms ∨
      ∃ p ∈ paths, ∃ cnt, fs.ReadFile p = .ok cnt ∧ parseModule env p cnt = .ok md := by
  induction paths with
  | nil => intro ms md h; exact Or.inl h
  | cons p rest ih =>
    intro ms md
    unfold LoadInitModules.loop
    split
    · intro h
      rcases ih ms md h with h1 | ⟨q, hq, cnt, h2, h3⟩
      · exact Or.inl h1
      · exact Or.inr ⟨q, List.mem_cons_of_mem _ hq, cnt, h2, h3⟩
    · split
      · split
        · intro h
          rcases ih ms md h with h1 | ⟨q, hq, cnt, h2, h3⟩
          · exact Or.inl h1
          · exact Or.inr ⟨q, List.mem_cons_of_mem _ hq, cnt, h2, h3⟩
        · intro h; simp at h
      · split
        · intro h
          rcases ih ms md h with h1 | ⟨q, hq, cnt, h2, h3⟩
          · exact Or.inl h1
          · exact Or.inr ⟨q, List.mem_cons_of_mem _ hq, cnt, h2, h3⟩
        · split
          · intro h; simp at h
          · split
            · intro h; simp at h
            · rename_i cnt hread _ m hparse
              intro h
              rcases ih (ms ++ [m]) md h with h1 | ⟨q, hq, cnt2, h2, h3⟩
              · rcases List.mem_append.mp h1 with h1 | h1
                · exact Or.inl h1
                · simp only [List.mem_singleton] at h1
                  subst h1
                  exact Or.inr ⟨p, List.mem_cons_self _ _, cnt, hread, hparse⟩
              · exact Or.inr ⟨q, List.mem_cons_of_mem _ hq, cnt2, h2, h3⟩

/-- C4 (amended): for every path and every content that `ParseModule` accepts,
`parseModule` returns the parsed module in which every import with metadata
got the key `$$path` appended, its value the quote of the path given to
`parseModule`, and every import without metadata is unchanged; the path given
is, in `LoadModuleWithMeta`, the path returned by `lookupModule` and, in
`LoadInitModules`, the root entry as configured. -/
theorem C4_parseModule_appends_path (env : Env) (fs : FS) (l : moduleLoader) :
    (∀ path cnt m0, env.ParseModule cnt = .ok m0 →
      ∃ m, parseModule env path cnt = .ok m ∧ m.Body = m0.Body ∧
        m.Imports.length = m0.Imports.length ∧
        ∀ (k : Nat) (i0 : Import), m0.Imports[k]? = some i0 →
          (i0.Meta = none → m.Imports[k]? = some i0) ∧
          (∀ o, i0.Meta = some o →
            m.Imports[k]? = some ⟨i0.ImportPath, i0.ImportAlias, i0.IncludePath,
              some ⟨o.KeyVals ++ [⟨"$$path", .Str (env.Quote path)⟩]⟩⟩)) ∧
    (∀ name mt md, (LoadModuleWithMeta env fs l name mt).val = some md →
      ∃ cnt, fs.ReadFile (lookupModule env fs l name ".jq" mt).val = .ok cnt ∧
        parseModule env (lookupModule env fs l name ".jq" mt).val cnt = .ok md) ∧
    (∀ md ∈ (LoadInitModules env fs l).val,
      ∃ p ∈ l.paths, ∃ cnt, fs.ReadFile p = .ok cnt ∧ parseModule env p cnt = .ok md) := by
  refine ⟨?_, ?_, ?_⟩
  · intro path cnt m0 h
    refine ⟨_, parseModule_ok env path cnt m0 h, rfl, by simp, ?_⟩
    intro k i0 hk
    simp only [List.getElem?_map, hk, Option.map_some']
    constructor
    · intro hnone
      simp [withPath, hnone]
    · intro o ho
      simp [withPath, ho]
  · intro name mt md h
    unfold LoadModuleWithMeta at h
    simp only [] at h
    split at h
    · simp at h
    · split at h
      · simp at h
      · rename_i cnt hread
        split at h
        · simp at h
        · rename_i md2 hparse
          simp only [Option.some.injEq] at h
          subst h
          exact ⟨cnt, hread, hparse⟩
  · intro md h
    rcases LoadInitModules.loop_mem env fs l.paths [] md h with h1 | h1
    · simp at h1
    · exact h1

/-- C4 (amended), evaluated: the module `/lib/m.jq` has an import with
metadata and one without. -/
theorem C4_parseModule_appends_path_witness :
    ∃ m, parseModule sampleEnv "/lib/m.jq" "imports" = .ok m ∧
      m.Imports[0]? = some ⟨"a", "a", "",
        some ⟨[⟨"search", .Str "./"⟩, ⟨"$$path", .Str "\"/lib/m.jq\""⟩]⟩⟩ ∧
      m.Imports[1]? = some ⟨"b", "b", "", none⟩ :=
  let ⟨m, hm, _, _, hk⟩ :=
    (C4_parseModule_appends_path sampleEnv fsImports ⟨["/lib"]⟩).1 "/lib/m.jq" "imports"
      ⟨[⟨"a", "a", "", some ⟨[⟨"search", .Str "./"⟩]⟩⟩, ⟨"b", "b", "", none⟩], "imports"⟩ rfl
  ⟨m, hm, (hk 0 _ rfl).2 _ rfl, (hk 1 _ rfl).1 rfl⟩

/-- The quote of an absolute path begins with a double quote and the
separator. -/
theorem Unix.Quote_of_IsAbs (q : String) (h : Unix.IsAbs q = true) :
    ∃ t, (Unix.Quote q).data = Char.ofNat 34 :: '/' :: t := by
  unfold Unix.IsAbs at h
  cases hq : q.data with
  | nil => simp [hq] at h
  | cons c cs =>
    simp only [hq, decide_eq_true_eq] at h
    subst h
    refine ⟨List.flatMap cs Unix.quoteChar ++ [Char.ofNat 34], ?_⟩
    simp only [Unix.Quote, hq, List.flatMap_cons]
    have : Unix.quoteChar '/' = ['/'] := by decide
    rw [this]
    rfl

/-- C4 as stated fails: for the root entry `./.jq`, given relative to the
working directory, `LoadInitModules` returns a module whose import with
metadata carries the quote of `./.jq`, which is the quote of no absolute
path. -/
theorem C4_counterexample :
    ∃ md i o, (LoadInitModules sampleEnv fsRelativeInit ⟨["./.jq"]⟩).val = [md] ∧
      (LoadInitModules sampleEnv fsRelativeInit ⟨["./.jq"]⟩).err = none ∧
      md.Imports[0]? = some i ∧ i.Meta = some o ∧
      (⟨"$$path", .Str "\"./.jq\""⟩ : ConstObjectKeyVal) ∈ o.KeyVals ∧
      ¬ carriesCleanAbsolutePath sampleEnv o := by
  refine ⟨⟨[⟨"a", "a", "",
      some ⟨[⟨"search", .Str "./"⟩, ⟨"$$path", .Str "\"./.jq\""⟩]⟩⟩, ⟨"b", "b", "", none⟩],
      "imports"⟩, ⟨"a", "a", "",
      some ⟨[⟨"search", .Str "./"⟩, ⟨"$$path", .Str "\"./.jq\""⟩]⟩⟩,
      ⟨[⟨"search", .Str "./"⟩, ⟨"$$path", .Str "\"./.jq\""⟩]⟩, by decide, by decide, rfl, rfl,
      by decide, ?_⟩
  rintro ⟨q, habs, -, hmem⟩
  obtain ⟨t, ht⟩ := Unix.Quote_of_IsAbs q habs
  simp only [List.mem_cons, ConstObjectKeyVal.mk.injEq, ConstTerm.Str.injEq,
    List.mem_singleton, List.not_mem_nil, or_false] at hmem
  rcases hmem with ⟨h1, -⟩ | ⟨-, h2⟩
  · exact absurd h1 (by decide)
  · have h3 : (Unix.Quote q).data = ("\"./.jq\"" : String).data := congrArg String.data h2
    rw [ht] at h3
    simp at h3

/-! ## Init modules -/

/-- What the loop of `LoadInitModules` gives when every root entry named
`.jq` is missing, a directory, or a file that can be read and parses. -/
theorem LoadInitModules.loop_ok (env : Env) (fs : FS) (paths : List String)
    (H : ∀ p ∈ paths, env.Base p = ".jq" →
      (∀ e, fs.Stat p = .error e → IsNotExist e = true) ∧
      (isInitFile env fs p = true → ∃ md, parsedModule env fs p = some md)) :
    ∀ ms, (LoadInitModules.loop env fs paths ms).err = none ∧
      (LoadInitModules.loop env fs paths ms).val.map some =
        ms.map some ++ (paths.filter (isInitFile env fs)).map (parsedModule env fs) ∧
      ∀ c ∈ (LoadInitModules.loop env fs paths ms).calls,
        ∃ p ∈ paths, env.Base p = ".jq" ∧ (c = .Stat p ∨ c = .ReadFile p) := by
  induction paths with
  | nil => intro ms; simp [LoadInitModules.loop]
  | cons p rest ih =>
    intro ms
    have ih2 := ih (fun q hq => H q (List.mem_cons_of_mem _ hq))
    have Hp := H p (List.mem_cons_self _ _)
    unfold LoadInitModules.loop
    by_cases hb : env.Base p = ".jq"
    · obtain ⟨hne, hparse⟩ := Hp hb
      simp only [hb, ne_eq, not_true_eq_false, if_false]
      cases hst : fs.Stat p with
      | error e =>
        have hinit : isInitFile env fs p = false := by simp [isInitFile, hst]
        simp only [hne e hst, if_true, List.filter_cons, hinit]
        obtain ⟨h1, h2, h3⟩ := ih2 ms
        refine ⟨h1, by simpa using h2, ?_⟩
        intro c hc
        simp only [List.mem_cons] at hc
        rcases hc with rfl | hc
        · exact ⟨p, List.mem_cons_self _ _, hb, Or.inl rfl⟩
        · obtain ⟨q, hq, hq2⟩ := h3 c hc
          exact ⟨q, List.mem_cons_of_mem _ hq, hq2⟩
      | ok fi =>
        by_cases hd : fi.IsDir = true
        · have hinit : isInitFile env fs p = false := by simp [isInitFile, hst, hd]
          simp only [hd, if_true, List.filter_cons, hinit]
          obtain ⟨h1, h2, h3⟩ := ih2 ms
          refine ⟨h1, by simpa using h2, ?_⟩
          intro c hc
          simp only [List.mem_cons] at hc
          rcases hc with rfl | hc
          · exact ⟨p, List.mem_cons_self _ _, hb, Or.inl rfl⟩
          · obtain ⟨q, hq, hq2⟩ := h3 c hc
            exact ⟨q, List.mem_cons_of_mem _ hq, hq2⟩
        · have hinit : isInitFile env fs p = true := by simp [isInitFile, hst, hd, hb]
          obtain ⟨md, hmd⟩ := hparse hinit
          have hd2 : fi.IsDir = false := by simpa using hd
          simp only [hd2, List.filter_cons, hinit, if_true, Bool.false_eq_true, if_false]
          unfold parsedModule at hmd
          cases hrd : fs.ReadFile p with
          | error e => simp [hrd] at hmd
          | ok cnt =>
            simp only [hrd] at hmd
            simp only []
            cases hpm : parseModule env p cnt with
            | error e => simp [hpm] at hmd
            | ok md2 =>
              simp only [hpm, Option.some.injEq] at hmd
              subst hmd
              obtain ⟨h1, h2, h3⟩ := ih2 (ms ++ [md2])
              simp only []
              refine ⟨h1, ?_, ?_⟩
              · simp only [h2, List.map_cons, parsedModule, hrd, hpm]
                simp
              · intro c hc
                simp only [List.mem_cons] at hc
                rcases hc with rfl | rfl | hc
                · exact ⟨p, List.mem_cons_self _ _, hb, Or.inl rfl⟩
                · exact ⟨p, List.mem_cons_self _ _, hb, Or.inr rfl⟩
                · obtain ⟨q, hq, hq2⟩ := h3 c hc
                  exact ⟨q, List.mem_cons_of_mem _ hq, hq2⟩
    · have hinit : isInitFile env fs p = false := by simp [isInitFile, hb]
      simp only [ne_eq, hb, not_false_eq_true, if_true, List.filter_cons, hinit]
      obtain ⟨h1, h2, h3⟩ := ih2 ms
      refine ⟨h1, by simpa using h2, ?_⟩
      intro c hc
      obtain ⟨q, hq, hq2⟩ := h3 c hc
      exact ⟨q, List.mem_cons_of_mem _ hq, hq2⟩

/-- C6 as stated fails: of the roots, the only entry is `/f/.jq` where `/f` is
a regular file; no root entry is an init file, so every init file reads and
parses, and the entry does not exist (its stat fails), yet `LoadInitModules`
does not skip it: it returns the error of the stat, which is not a not-found
error. -/
theorem C6_counterexample :
    (∀ p ∈ ["/f/.jq"], isInitFile sampleEnv fsNotDir p = true →
      ∃ md, parsedModule sampleEnv fsNotDir p = some md) ∧
    sampleEnv.Base "/f/.jq" = ".jq" ∧
    fsNotDir.Exists "/f/.jq" = false ∧
    (LoadInitModules sampleEnv fsNotDir ⟨["/f/.jq"]⟩).val = [] ∧
    (LoadInitModules sampleEnv fsNotDir ⟨["/f/.jq"]⟩).err =
      some (.PathError "stat" "/f/.jq" .ENOTDIR) ∧
    (LoadInitModules sampleEnv fsNotDir ⟨["/f/.jq"]⟩).err ≠ none := by
  refine ⟨?_, by decide, by decide, by decide, by decide, by decide⟩
  intro p hp hi
  simp only [List.mem_singleton] at hp
  subst hp
  exact absurd hi (by decide)

/-- C6 (amended): when every root entry named `.jq` either has a stat that
succeeds or a stat that fails with a not-found error, and every init file (a
root entry named `.jq` that exists and is not a directory) can be read and
parses, `LoadInitModules` succeeds and returns, in root order, the parsed
modules of exactly the init files; no entry with another base name is
stat-ed. -/
theorem C6_LoadInitModules_collects (env : Env) (fs : FS) (l : moduleLoader)
    (H : ∀ p ∈ l.paths, env.Base p = ".jq" →
      (∀ e, fs.Stat p = .error e → IsNotExist e = true) ∧
      (isInitFile env fs p = true → ∃ md, parsedModule env fs p = some md)) :
    (LoadInitModules env fs l).err = none ∧
    (LoadInitModules env fs l).val.map some =
      (l.paths.filter (isInitFile env fs)).map (parsedModule env fs) ∧
    (∀ p, env.Base p ≠ ".jq" → Syscall.Stat p ∉ (LoadInitModules env fs l).calls) := by
  obtain ⟨h1, h2, h3⟩ := LoadInitModules.loop_ok env fs l.paths H []
  refine ⟨h1, by simpa using h2, ?_⟩
  intro p hp hmem
  obtain ⟨q, -, hq, hc⟩ := h3 _ hmem
  rcases hc with hc | hc
  · simp only [Syscall.Stat.injEq] at hc
    subst hc
    exact hp hq
  · simp at hc

/-- C6, evaluated: of the roots `/does/not/exist` and
`/dir-not-init-named/.jq` (a directory) nothing is loaded and there is no
error; with the init file `/home/u/.jq` among the roots, its module is what
is returned. -/
theorem C6_LoadInitModules_collects_witness :
    ((LoadInitModules sampleEnv fsInit ⟨["/does/not/exist", "/dir-not-init-named/.jq"]⟩).err
        = none ∧
      (LoadInitModules sampleEnv fsInit
        ⟨["/does/not/exist", "/dir-not-init-named/.jq"]⟩).val.map some = []) ∧
    ((LoadInitModules sampleEnv fsInit
        ⟨["/does/not/exist", "/dir-not-init-named/.jq", "/etc/lib", "/home/u/.jq",
          "/nowhere/.jq"]⟩).err = none ∧
      (LoadInitModules sampleEnv fsInit
        ⟨["/does/not/exist", "/dir-not-init-named/.jq", "/etc/lib", "/home/u/.jq",
          "/nowhere/.jq"]⟩).val.map some =
        [parsedModule sampleEnv fsInit "/home/u/.jq"] ∧
      Syscall.Stat "/etc/lib" ∉ (LoadInitModules sampleEnv fsInit
        ⟨["/does/not/exist", "/dir-not-init-named/.jq", "/etc/lib", "/home/u/.jq",
          "/nowhere/.jq"]⟩).calls) := by
  constructor
  · have h := C6_LoadInitModules_collects sampleEnv fsInit
      ⟨["/does/not/exist", "/dir-not-init-named/.jq"]⟩ (by
        intro p hp hb
        simp only [List.mem_cons, List.mem_singleton, List.not_mem_nil, or_false] at hp
        rcases hp with rfl | rfl
        · exact absurd hb (by decide)
        · exact ⟨fun e he => (by cases he), fun hi => absurd hi (by decide)⟩)
    exact ⟨h.1, h.2.1⟩
  · have h := C6_LoadInitModules_collects sampleEnv fsInit
      ⟨["/does/not/exist", "/dir-not-init-named/.jq", "/etc/lib", "/home/u/.jq",
        "/nowhere/.jq"]⟩ (by
        intro p hp hb
        simp only [List.mem_cons, List.mem_singleton, List.not_mem_nil, or_false] at hp
        rcases hp with rfl | rfl | rfl | rfl | rfl
        · exact absurd hb (by decide)
        · exact ⟨fun e he => (by cases he), fun hi => absurd hi (by decide)⟩
        · exact absurd hb (by decide)
        · exact ⟨fun e he => (by cases he), fun _ => ⟨_, rfl⟩⟩
        · exact ⟨fun e he => (by cases he; rfl), fun hi => absurd hi (by decide)⟩)
    exact ⟨h.1, h.2.1, h.2.2 "/etc/lib" (by decide)⟩

/-- The loop of `LoadInitModules` over a split root list: the second part is
visited only when the first part gave no error, and then with the modules of
the first part. -/
theorem LoadInitModules.loop_append (env : Env) (fs : FS) (pre post : List String) :
    ∀ ms, LoadInitModules.loop env fs (pre ++ post) ms =
      match (LoadInitModules.loop env fs pre ms).err with
      | some _ => LoadInitModules.loop env fs pre ms
      | none =>
        ⟨(LoadInitModules.loop env fs post (LoadInitModules.loop env fs pre ms).val).val,
          (LoadInitModules.loop env fs post (LoadInitModules.loop env fs pre ms).val).err,
          (LoadInitModules.loop env fs pre ms).calls ++
            (LoadInitModules.loop env fs post (LoadInitModules.loop env fs pre ms).val).calls⟩ := by
  induction pre with
  | nil => intro ms; simp [LoadInitModules.loop]
  | cons p rest ih =>
    intro ms
    simp only [List.cons_append, LoadInitModules.loop]
    have e : rest.append post = rest ++ post := rfl
    simp only [e]
    split
    · exact ih ms
    · split
      · split
        · rw [ih ms]
          cases h : (LoadInitModules.loop env fs rest ms).err <;> simp [h]
        · simp
      · split
        · rw [ih ms]
          cases h : (LoadInitModules.loop env fs rest ms).err <;> simp [h]
        · split
          · simp
          · split
            · simp
            · rename_i m _
              rw [ih (ms ++ [m])]
              cases h : (LoadInitModules.loop env fs rest (ms ++ [m])).err <;> simp [h]

/-- What `LoadInitModules` gives when the roots before the entry `p` give no
error. -/
theorem LoadInitModules_split (env : Env) (fs : FS) (pre post : List String) (p : String)
    (h : (LoadInitModules.loop env fs pre []).err = none) :
    LoadInitModules env fs ⟨pre ++ p :: post⟩ =
      ⟨(LoadInitModules.loop env fs (p :: post) (LoadInitModules.loop env fs pre []).val).val,
        (LoadInitModules.loop env fs (p :: post) (LoadInitModules.loop env fs pre []).val).err,
        (LoadInitModules.loop env fs pre []).calls ++
          (LoadInitModules.loop env fs (p :: post)
            (LoadInitModules.loop env fs pre []).val).calls⟩ := by
  simp only [LoadInitModules, LoadInitModules.loop_append, h]

/-- C8 as stated fails: `/a/.jq` is an init file that cannot be opened and
`/b/.jq`, after it, is the first init file whose parse fails; the call
returns the error of the read of `/a/.jq`, not the parse error of
`/b/.jq`. -/
theorem C8_counterexample :
    initParseError sampleEnv fsUnreadableInit "/a/.jq" = none ∧
    initParseError sampleEnv fsUnreadableInit "/b/.jq" =
      some ("bad", .foreign "unexpected token") ∧
    (LoadInitModules sampleEnv fsUnreadableInit ⟨["/a/.jq", "/b/.jq"]⟩).err =
      some (.PathError "open" "/a/.jq" .EACCES) ∧
    (LoadInitModules sampleEnv fsUnreadableInit ⟨["/a/.jq", "/b/.jq"]⟩).err ≠
      some (.queryParseError "query in module" "/b/.jq" "bad" (.foreign "unexpected token")) := by
  refine ⟨by decide, by decide, by decide, by decide⟩

/-- C8 (amended): when an init file `p` fails to parse, no init file before it
fails to parse, and every root entry named `.jq` before it is missing, a
directory, or a file that can be read, `LoadInitModules` returns no modules
and the `queryParseError` with the path and the content of `p` and the parse
error; the calls end with the read of `p`, the roots after `p` are not
examined. -/
theorem C8_first_parse_failure (env : Env) (fs : FS) (pre post : List String)
    (p cnt : String) (e : GoError)
    (hfail : initParseError env fs p = some (cnt, e))
    (hfirst : ∀ q ∈ pre, initParseError env fs q = none)
    (hio : ∀ q ∈ pre, env.Base q = ".jq" →
      (∀ e, fs.Stat q = .error e → IsNotExist e = true) ∧
      (isInitFile env fs q = true → ∃ c, fs.ReadFile q = .ok c)) :
    (LoadInitModules env fs ⟨pre ++ p :: post⟩).val = [] ∧
    (LoadInitModules env fs ⟨pre ++ p :: post⟩).err =
      some (.queryParseError "query in module" p cnt e) ∧
    (LoadInitModules env fs ⟨pre ++ p :: post⟩).calls =
      (LoadInitModules env fs ⟨pre⟩).calls ++ [.Stat p, .ReadFile p] := by
  have hpre : (LoadInitModules.loop env fs pre []).err = none := by
    refine (LoadInitModules.loop_ok env fs pre ?_ []).1
    intro q hq hb
    refine ⟨(hio q hq hb).1, fun hi => ?_⟩
    obtain ⟨c, hc⟩ := (hio q hq hb).2 hi
    have hq2 := hfirst q hq
    simp only [initParseError, hi, if_true, hc] at hq2
    simp only [parsedModule, hc]
    cases hpm : parseModule env q c with
    | error e2 => simp [hpm] at hq2
    | ok md => exact ⟨md, rfl⟩
  rw [LoadInitModules_split env fs pre post p hpre]
  unfold initParseError at hfail
  by_cases hi : isInitFile env fs p = true
  · simp only [hi, if_true] at hfail
    have hi2 := hi
    simp only [isInitFile, Bool.and_eq_true, decide_eq_true_eq] at hi2
    obtain ⟨hb, hst⟩ := hi2
    cases hstat : fs.Stat p with
    | error e2 => simp [hstat] at hst
    | ok fi =>
      simp only [hstat, Bool.not_eq_true'] at hst
      cases hrd : fs.ReadFile p with
      | error e2 => simp [hrd] at hfail
      | ok c =>
        simp only [hrd] at hfail
        cases hpm : parseModule env p c with
        | ok md => simp [hpm] at hfail
        | error e2 =>
          simp only [hpm, Option.some.injEq, Prod.mk.injEq] at hfail
          obtain ⟨rfl, rfl⟩ := hfail
          simp [LoadInitModules.loop, hb, hstat, hst, hrd, hpm, LoadInitModules]
  · simp [hi] at hfail

/-- C8 (amended), evaluated: `/a/.jq` parses, `/b/.jq` does not, `/c/.jq` is
not examined. -/
theorem C8_first_parse_failure_witness :
    (LoadInitModules sampleEnv fsBadInit ⟨["/a/.jq", "/b/.jq", "/c/.jq"]⟩).val = [] ∧
    (LoadInitModules sampleEnv fsBadInit ⟨["/a/.jq", "/b/.jq", "/c/.jq"]⟩).err =
      some (.queryParseError "query in module" "/b/.jq" "bad" (.foreign "unexpected token")) ∧
    (LoadInitModules sampleEnv fsBadInit ⟨["/a/.jq", "/b/.jq", "/c/.jq"]⟩).calls =
      [.Stat "/a/.jq", .ReadFile "/a/.jq", .Stat "/b/.jq", .ReadFile "/b/.jq"] :=
  C8_first_parse_failure sampleEnv fsBadInit ["/a/.jq"] ["/c/.jq"] "/b/.jq" "bad"
    (.foreign "unexpected token") (by decide) (by decide)
    (by
      intro q hq hb
      simp only [List.mem_singleton] at hq
      subst hq
      exact ⟨fun e he => (by cases he), fun _ => ⟨_, rfl⟩⟩)

/-! ## Data files -/

/-- The decoding loop goes through the values that the decoder yields. -/
theorem LoadJSONWithMeta.loop_values (path : String) (f : File) :
    ∀ (vs : List Value) (fuel i : Nat) (acc : List Value),
      (∀ (k : Nat) (v : Value), vs[k]? = some v → f.Decode (i + k) = .ok v) →
      LoadJSONWithMeta.loop path f (fuel + vs.length) i acc =
        LoadJSONWithMeta.loop path f fuel (i + vs.length) (acc ++ vs) := by
  intro vs
  induction vs with
  | nil => intro fuel i acc _; simp
  | cons v vs ih =>
    intro fuel i acc h
    have h0 : f.Decode i = .ok v := by simpa using h 0 v (by simp)
    have hstep : ∀ (k : Nat) (w : Value), vs[k]? = some w → f.Decode (i + 1 + k) = .ok w := by
      intro k w hk
      have := h (k + 1) w (by simpa using hk)
      rwa [show i + (k + 1) = i + 1 + k by omega] at this
    have e1 : fuel + (v :: vs).length = (fuel + vs.length) + 1 := by simp; omega
    rw [e1, LoadJSONWithMeta.loop]
    simp only [h0]
    rw [ih fuel (i + 1) (acc ++ [v]) hstep]
    have e2 : i + 1 + vs.length = i + (v :: vs).length := by simp; omega
    rw [e2]
    simp

/-- C7: for a resolved data file that can be opened, if the decoder yields
the values `vs` and then the end of the stream, `LoadJSONWithMeta` succeeds
with exactly `vs` (the empty list for an empty file); if after the values
`vs` the decoder yields an error, `LoadJSONWithMeta` returns no values and the
`jsonParseError` with the resolved path, the content of the buffer at that
point and the error of the decoder.  Any bound above the number of values
suffices. -/
theorem C7_LoadJSONWithMeta_decodes (env : Env) (fs : FS) (l : moduleLoader)
    (name : String) (m : Meta) (f : File) (vs : List Value)
    (hlook : (lookupModule env fs l name ".json" m).err = none)
    (hopen : fs.Open (lookupModule env fs l name ".json" m).val = .ok f)
    (hvals : ∀ (k : Nat) (v : Value), vs[k]? = some v → f.Decode k = .ok v) :
    (f.Decode vs.length = .error .EOF → ∀ fuel, vs.length < fuel →
      LoadJSONWithMeta env fs l fuel name m =
        some ⟨some vs, none,
          (lookupModule env fs l name ".json" m).calls ++
            [.Open (lookupModule env fs l name ".json" m).val,
              .Close (lookupModule env fs l name ".json" m).val]⟩) ∧
    (∀ e, e ≠ .EOF → f.Decode vs.length = .error e → ∀ fuel, vs.length < fuel →
      LoadJSONWithMeta env fs l fuel name m =
        some ⟨none,
          some (.jsonParseError (lookupModule env fs l name ".json" m).val
            (f.Buffered vs.length) e),
          (lookupModule env fs l name ".json" m).calls ++
            [.Open (lookupModule env fs l name ".json" m).val,
              .Close (lookupModule env fs l name ".json" m).val]⟩) := by
  have hrun : ∀ n, LoadJSONWithMeta.loop (lookupModule env fs l name ".json" m).val f
      (n + 1 + vs.length) 0 [] =
      LoadJSONWithMeta.loop (lookupModule env fs l name ".json" m).val f (n + 1)
        vs.length vs := by
    intro n
    have := LoadJSONWithMeta.loop_values (lookupModule env fs l name ".json" m).val f vs
      (n + 1) 0 [] (by simpa using hvals)
    simpa using this
  constructor
  · intro heof fuel hfuel
    obtain ⟨n, rfl⟩ : ∃ n, fuel = n + 1 + vs.length := ⟨fuel - vs.length - 1, by omega⟩
    simp only [LoadJSONWithMeta, hlook, hopen, hrun n, LoadJSONWithMeta.loop, heof]
  · intro e hne herr fuel hfuel
    obtain ⟨n, rfl⟩ : ∃ n, fuel = n + 1 + vs.length := ⟨fuel - vs.length - 1, by omega⟩
    simp only [LoadJSONWithMeta, hlook, hopen, hrun n, LoadJSONWithMeta.loop, herr]

/-- C7, evaluated: a file with the values 1 and 2, an empty file, and a file
with the value 1 followed by a syntax error. -/
theorem C7_LoadJSONWithMeta_decodes_witness :
    LoadJSONWithMeta sampleEnv fsData ⟨["/data"]⟩ 3 "two" none =
      some ⟨some [.number 1 0, .number 2 0], none,
        [.Stat "/data/two.json", .Open "/data/two.json", .Close "/data/two.json"]⟩ ∧
    LoadJSONWithMeta sampleEnv fsData ⟨["/data"]⟩ 1 "empty" none =
      some ⟨some [], none,
        [.Stat "/data/empty.json", .Open "/data/empty.json", .Close "/data/empty.json"]⟩ ∧
    LoadJSONWithMeta sampleEnv fsData ⟨["/data"]⟩ 2 "broken" none =
      some ⟨none,
        some (.jsonParseError "/data/broken.json" "1 x"
          (.foreign "invalid character x looking for beginning of value")),
        [.Stat "/data/broken.json", .Open "/data/broken.json", .Close "/data/broken.json"]⟩ :=
  ⟨(C7_LoadJSONWithMeta_decodes sampleEnv fsData ⟨["/data"]⟩ "two" none (sampleDecode "1 2")
      [.number 1 0, .number 2 0] rfl rfl
      (by
        intro k v h
        match k, h with
        | 0, h => simp at h; subst h; rfl
        | 1, h => simp at h; subst h; rfl
        | k + 2, h => simp at h)).1 rfl 3 (by decide),
    (C7_LoadJSONWithMeta_decodes sampleEnv fsData ⟨["/data"]⟩ "empty" none (sampleDecode "")
      [] rfl rfl (by intro k v h; simp at h)).1 rfl 1 (by decide),
    (C7_LoadJSONWithMeta_decodes sampleEnv fsData ⟨["/data"]⟩ "broken" none
      (sampleDecode "1 x") [.number 1 0] rfl rfl
      (by
        intro k v h
        match k, h with
        | 0, h => simp at h; subst h; rfl
        | k + 1, h => simp at h)).2 _ (by decide) rfl 2 (by decide)⟩

/-! ## Failures of the filesystem -/

end Gojq
